import Mathlib

/-!
Shallow embedding of the P2P file-sharing node (Python sources under src/).

Bytes are modelled as natural numbers; byte strings as `List Nat`.  Fallible
Python code (functions that may `raise`) is modelled in `Except String`.
Machine integers do not occur: Python integers are unbounded, and the only
width-sensitive operations are `struct.pack`/`struct.unpack` with the "!I"
(4-byte big-endian) and "!B" formats, which are modelled explicitly.
-/

namespace P2P

/-- Big-endian 4-byte encoding, the result of `struct.pack("!I", n)` for
`n < 2^32` (`struct.pack` raises for larger values; fallible callers guard). -/
def pack32 (n : Nat) : List Nat :=
  [n / 16777216 % 256, n / 65536 % 256, n / 256 % 256, n % 256]

/-- Big-endian 4-byte decoding, `struct.unpack("!I", b)[0]` on the first four
bytes of `b` (callers always pass exactly four bytes). -/
def unpack32 (b : List Nat) : Nat :=
  b.getD 0 0 * 16777216 + b.getD 1 0 * 65536 + b.getD 2 0 * 256 + b.getD 3 0

theorem unpack32_pack32 (n : Nat) (h : n < 4294967296) : unpack32 (pack32 n) = n := by
  simp only [pack32, unpack32, List.getD_cons_zero, List.getD_cons_succ]
  omega

theorem pack32_length (n : Nat) : (pack32 n).length = 4 := rfl

/-! Framing: src/messages.py -/

/-- Message as constructed by `Message.__init__`: a type tag and a payload.
The eight type constants CHOKE..PIECE are 0..7. -/
structure Message where
  message_type : Nat
  payload : List Nat
deriving DecidableEq

/-- Message.encode: `struct.pack("!IB", len(payload)+1, message_type) + payload`.
`struct.pack` raises `struct.error` when the length does not fit "!I" or the
type does not fit "!B"; both cases are modelled as errors. -/
def Message.encode (m : Message) : Except String (List Nat) :=
  let length := m.payload.length + 1
  if length < 4294967296 ∧ m.message_type < 256 then
    .ok (pack32 length ++ m.message_type :: m.payload)
  else
    .error "struct.error"

/-- Message.decode: raises only when fewer than 5 bytes are given; otherwise
reads the 4-byte length, the type byte, and the slice `data[5 : 4+length]`
(which Python truncates at the end of `data`, here by `List.take`). -/
def Message.decode (data : List Nat) : Except String Message :=
  if data.length < 5 then
    .error "Incomplete Message Header"
  else
    .ok ⟨data.getD 4 0, (data.drop 5).take (4 + unpack32 (data.take 4) - 5)⟩

/-! Handshake: src/handshake.py -/

/-- HANDSHAKE_HEADER, the 18 ASCII bytes of P2PFILESHARINGPROJ. -/
def HANDSHAKE_HEADER : List Nat := "P2PFILESHARINGPROJ".toList.map Char.toNat

/-- ZERO_BITS, ten zero bytes. -/
def ZERO_BITS : List Nat := List.replicate 10 0

/-- create_handshake: header, ten zero bytes, then the 4-byte big-endian id
(`struct.pack("!I", peerID)` raises for ids that do not fit). -/
def create_handshake (peerID : Nat) : Except String (List Nat) :=
  if peerID < 4294967296 then
    .ok (HANDSHAKE_HEADER ++ ZERO_BITS ++ pack32 peerID)
  else
    .error "struct.error"

/-- read_handshake: checks total length 32, the header, the ten zero bytes,
and returns the big-endian id from bytes 28..31. -/
def read_handshake (data : List Nat) : Except String Nat :=
  if data.length ≠ 32 then .error "Invalid Handshake Length"
  else if data.take 18 ≠ HANDSHAKE_HEADER then .error "Invalid handshake header"
  else if (data.drop 18).take 10 ≠ ZERO_BITS then .error "Invalid zero bits section"
  else .ok (unpack32 (data.drop 28))

theorem header_length : HANDSHAKE_HEADER.length = 18 := rfl

/-- C2: for every well-formed message (type in 0..7, payload length + 1 fits
the 4-byte big-endian length field), decoding the encoding yields the same
type and payload; and for every peer id that fits 4 big-endian bytes,
read_handshake of create_handshake returns the id. -/
theorem decode_encode_roundtrip (t : Nat) (p : List Nat) (id : Nat)
    (ht : t ≤ 7) (hp : p.length + 1 < 4294967296) (hid : id < 4294967296) :
    (Message.encode ⟨t, p⟩).bind Message.decode = .ok ⟨t, p⟩ ∧
    (create_handshake id).bind read_handshake = .ok id := by
  constructor
  · have henc : Message.encode ⟨t, p⟩ = .ok (pack32 (p.length + 1) ++ t :: p) := by
      simp only [Message.encode]
      rw [if_pos ⟨hp, by omega⟩]
    rw [henc]
    simp only [Except.bind, Message.decode]
    have hlen : (pack32 (p.length + 1) ++ t :: p).length = 5 + p.length := by
      simp only [List.length_append, pack32_length, List.length_cons]
      omega
    rw [if_neg (by omega)]
    have htake : (pack32 (p.length + 1) ++ t :: p).take 4 = pack32 (p.length + 1) := by
      rw [List.take_left' (pack32_length _)]
    have hdrop : (pack32 (p.length + 1) ++ t :: p).drop 5 = p := by
      have : pack32 (p.length + 1) ++ t :: p = (pack32 (p.length + 1) ++ [t]) ++ p := by
        simp
      rw [this, List.drop_left' (by simp [pack32_length])]
    have hget : (pack32 (p.length + 1) ++ t :: p).getD 4 0 = t := by
      simp [pack32, List.getD]
    rw [htake, hdrop, hget, unpack32_pack32 _ hp]
    have h45 : 4 + (p.length + 1) - 5 = p.length := by omega
    rw [h45, List.take_length]
  · have henc : create_handshake id = .ok (HANDSHAKE_HEADER ++ ZERO_BITS ++ pack32 id) := by
      simp only [create_handshake]
      rw [if_pos hid]
    rw [henc]
    simp only [Except.bind, read_handshake]
    have hlen : (HANDSHAKE_HEADER ++ ZERO_BITS ++ pack32 id).length = 32 := by
      simp [header_length, ZERO_BITS, pack32_length]
    rw [if_neg (by omega)]
    have h18 : (HANDSHAKE_HEADER ++ ZERO_BITS ++ pack32 id).take 18 = HANDSHAKE_HEADER := by
      rw [List.append_assoc, List.take_left' header_length]
    rw [if_neg (fun hne => hne h18)]
    have hdrop18 : (HANDSHAKE_HEADER ++ ZERO_BITS ++ pack32 id).drop 18 =
        ZERO_BITS ++ pack32 id := by
      rw [List.append_assoc, List.drop_left' header_length]
    have h10 : ((HANDSHAKE_HEADER ++ ZERO_BITS ++ pack32 id).drop 18).take 10 = ZERO_BITS := by
      rw [hdrop18, List.take_left' (by simp [ZERO_BITS])]
    rw [if_neg (fun hne => hne h10)]
    have hdrop28 : (HANDSHAKE_HEADER ++ ZERO_BITS ++ pack32 id).drop 28 = pack32 id := by
      have : HANDSHAKE_HEADER ++ ZERO_BITS ++ pack32 id =
          (HANDSHAKE_HEADER ++ ZERO_BITS) ++ pack32 id := by simp
      rw [this, List.drop_left' (by simp [header_length, ZERO_BITS])]
    rw [hdrop28, unpack32_pack32 _ hid]

/-- Witness for decode_encode_roundtrip at t = 4, payload [0,0,0,7], id = 1001. -/
theorem decode_encode_roundtrip_witness :
    (Message.encode ⟨4, [0, 0, 0, 7]⟩).bind Message.decode = .ok ⟨4, [0, 0, 0, 7]⟩ ∧
    (create_handshake 1001).bind read_handshake = .ok 1001 :=
  decode_encode_roundtrip 4 [0, 0, 0, 7] 1001 (by decide) (by decide) (by decide)

/-- C3 counterexample: the claim says decoding fails with ShortFrame when the
input is shorter than the declared frame, with UnknownType when the type byte
is outside 0..7, and with BadPayload when a fixed-size type carries a payload
of the wrong length.  The input [0,0,0,10,9] declares a 14-byte frame but is 5
bytes long, and its type byte 9 is outside 0..7; the input [0,0,0,1,4] is a
complete HAVE frame whose payload is empty instead of 4 bytes.  Both decode
successfully, so all three failure requirements are violated. -/
theorem decode_no_validation_counterexample :
    Message.decode [0, 0, 0, 10, 9] = .ok ⟨9, []⟩ ∧
    ([0, 0, 0, 10, 9] : List Nat).length < 4 + 10 ∧ ¬(9 ≤ 7) ∧
    Message.decode [0, 0, 0, 1, 4] = .ok ⟨4, []⟩ := by
  refine ⟨?_, by decide, by decide, ?_⟩ <;> rfl

/-- C3 amended: Message.decode fails only when the input has fewer than 5
bytes, and then with the single error string "Incomplete Message Header"; on
any input of at least 5 bytes it succeeds, performing no type-range or
payload-length validation (truncated frames are accepted with a shortened
payload). -/
theorem decode_fails_iff_short (data : List Nat) :
    ((Message.decode data).isOk = true ∧ 5 ≤ data.length) ∨
    (Message.decode data = .error "Incomplete Message Header" ∧ data.length < 5) := by
  by_cases h : data.length < 5
  · right
    exact ⟨by simp [Message.decode, h], h⟩
  · left
    refine ⟨?_, by omega⟩
    simp [Message.decode, h, Except.isOk, Except.toBool]

/-! Bitfield: src/bitfield.py.  The `field` bytearray is indexed without any
range guard, so a byte index past the end raises IndexError; this is modelled
in `Except String`. -/

/-- Bitfield: a piece count and the packed byte array `field`. -/
structure Bitfield where
  num_pieces : Nat
  field : List Nat
deriving DecidableEq

namespace Bitfield

/-- Bitfield.__init__: `field = bytearray((num_pieces + 7) // 8)`, zero-filled. -/
def init (num_pieces : Nat) : Bitfield :=
  ⟨num_pieces, List.replicate ((num_pieces + 7) / 8) 0⟩

/-- Bitfield.has_piece: reads `field[index // 8]` (IndexError past the end)
and tests the bit `1 << (7 - index % 8)`. -/
def has_piece (bf : Bitfield) (index : Nat) : Except String Bool :=
  let byte_index := index / 8
  let bit_index := index % 8
  if byte_index < bf.field.length then
    .ok (decide (bf.field.getD byte_index 0 &&& (1 <<< (7 - bit_index)) ≠ 0))
  else
    .error "IndexError"

/-- Bitfield.set_piece: ORs `1 << (7 - index % 8)` into `field[index // 8]`
(IndexError past the end). -/
def set_piece (bf : Bitfield) (index : Nat) : Except String Bitfield :=
  let byte_index := index / 8
  let bit_index := index % 8
  if byte_index < bf.field.length then
    .ok ⟨bf.num_pieces,
         bf.field.set byte_index (bf.field.getD byte_index 0 ||| (1 <<< (7 - bit_index)))⟩
  else
    .error "IndexError"

/-- Bitfield.to_bytes: returns the bytes of `field`. -/
def to_bytes (bf : Bitfield) : List Nat := bf.field

/-- Bitfield.from_bytes: builds a bitfield for `num_pieces` pieces and then
overwrites `field` with `data` verbatim — no length validation at all. -/
def from_bytes (data : List Nat) (num_pieces : Nat) : Bitfield :=
  ⟨num_pieces, data⟩

end Bitfield

/-- C4 counterexample: the claim says `has` returns false (never failing) for
every index at or past num_pieces.  On a fresh 10-piece bitfield (2 field
bytes) index 16 has byte index 2, past the 2-byte field, and has_piece raises
IndexError instead of returning false; moreover after the unguarded
set_piece 10 the padding bit 10 reads back as present. -/
theorem has_piece_out_of_range_counterexample :
    (Bitfield.init 10).has_piece 16 = .error "IndexError" ∧
    ((Bitfield.init 10).set_piece 10).bind (fun bf => bf.has_piece 10) = .ok true := by
  constructor <;> rfl

/-- C4 amended: for a bitfield whose field has the canonical
ceil(num_pieces/8) bytes and whose padding bits are all clear, has_piece on an
index i ≥ num_pieces returns false as long as i is still inside the byte
array (i < 8 · field length), but raises IndexError as soon as
i ≥ 8 · field length. -/
theorem has_piece_out_of_range (bf : Bitfield) (i : Nat)
    (hlen : bf.field.length = (bf.num_pieces + 7) / 8)
    (hpad : ∀ j, bf.num_pieces ≤ j → j < 8 * bf.field.length →
      (bf.field.getD (j / 8) 0).testBit (7 - j % 8) = false)
    (hi : bf.num_pieces ≤ i) :
    (i < 8 * bf.field.length → bf.has_piece i = .ok false) ∧
    (8 * bf.field.length ≤ i → bf.has_piece i = .error "IndexError") := by
  constructor
  · intro hlt
    have hbyte : i / 8 < bf.field.length := by omega
    have hbit : (bf.field.getD (i / 8) 0).testBit (7 - i % 8) = false := hpad i hi hlt
    simp only [Bitfield.has_piece, if_pos hbyte, Except.ok.injEq]
    have hshift : (1 : Nat) <<< (7 - i % 8) = 2 ^ (7 - i % 8) := by
      rw [Nat.shiftLeft_eq, one_mul]
    rw [hshift]
    have hand : bf.field.getD (i / 8) 0 &&& 2 ^ (7 - i % 8) = 0 := by
      rw [Nat.and_two_pow, hbit]
      simp
    rw [hand]
    simp
  · intro hge
    have hbyte : ¬ (i / 8 < bf.field.length) := by omega
    simp [Bitfield.has_piece, hbyte]

/-- Witness for has_piece_out_of_range at a fresh 10-piece bitfield, i = 12. -/
theorem has_piece_out_of_range_witness :
    (12 < 8 * (Bitfield.init 10).field.length →
      (Bitfield.init 10).has_piece 12 = .ok false) ∧
    (8 * (Bitfield.init 10).field.length ≤ 12 →
      (Bitfield.init 10).has_piece 12 = .error "IndexError") :=
  has_piece_out_of_range (Bitfield.init 10) 12 (by decide)
    (by decide) (by decide)

/-- C5 counterexample: the claim says from_bytes fails on every input whose
length differs from ceil(num_pieces/8).  The empty input has length 0 ≠ 2 =
ceil(10/8), yet from_bytes succeeds, returning a bitfield that stores the
empty field verbatim. -/
theorem from_bytes_no_check_counterexample :
    Bitfield.from_bytes [] 10 = ⟨10, []⟩ ∧
    ([] : List Nat).length ≠ (10 + 7) / 8 := by
  exact ⟨rfl, by decide⟩

/-- C5 amended: from_bytes performs no length validation at all — even on an
input whose length differs from ceil(num_pieces/8) it succeeds, storing the
given bytes verbatim as the field. -/
theorem from_bytes_accepts_any_length (data : List Nat) (num_pieces : Nat)
    (_hne : data.length ≠ (num_pieces + 7) / 8) :
    (Bitfield.from_bytes data num_pieces).field = data ∧
    (Bitfield.from_bytes data num_pieces).num_pieces = num_pieces :=
  ⟨rfl, rfl⟩

/-- Witness for from_bytes_accepts_any_length at the empty input, 10 pieces. -/
theorem from_bytes_accepts_any_length_witness :
    (Bitfield.from_bytes [] 10).field = [] ∧
    (Bitfield.from_bytes [] 10).num_pieces = 10 :=
  from_bytes_accepts_any_length [] 10 (by decide)

/-! FileMeta: src/src/p2p/storage.py -/

/-- FileMeta: describes the target file and how it is split into pieces. -/
structure FileMeta where
  file_name : String
  file_size : Nat
  piece_size : Nat
deriving DecidableEq

namespace FileMeta

/-- FileMeta.num_pieces: `(file_size + piece_size - 1) // piece_size`. -/
def num_pieces (m : FileMeta) : Nat :=
  (m.file_size + m.piece_size - 1) / m.piece_size

/-- FileMeta.piece_len: raises IndexError outside `0 ≤ indx < num_pieces`
(indices are naturals here, so only the upper bound can fail); otherwise
`min (start + piece_size) file_size - start` with `start = indx * piece_size`. -/
def piece_len (m : FileMeta) (indx : Nat) : Except String Nat :=
  if indx < m.num_pieces then
    .ok (min (indx * m.piece_size + m.piece_size) m.file_size - indx * m.piece_size)
  else
    .error "IndexError"

end FileMeta

/-- Ceiling division (f + p - 1) / p equals f / p when p divides f. -/
theorem ceil_div_of_dvd (f p : Nat) (hp : 0 < p) (hr0 : f % p = 0) :
    (f + p - 1) / p = f / p := by
  have hqr : f / p * p + f % p = f := Nat.div_add_mod' f p
  have harr : f + p - 1 = (p - 1) + p * (f / p) := by
    rw [mul_comm]
    omega
  rw [harr, Nat.add_mul_div_left _ _ hp, Nat.div_eq_of_lt (by omega)]
  omega

/-- Ceiling division (f + p - 1) / p equals f / p + 1 when p does not divide f. -/
theorem ceil_div_of_not_dvd (f p : Nat) (hp : 0 < p) (hr0 : f % p ≠ 0) :
    (f + p - 1) / p = f / p + 1 := by
  have hqr : f / p * p + f % p = f := Nat.div_add_mod' f p
  have hr : f % p < p := Nat.mod_lt f hp
  have harr : f + p - 1 = (f % p + p - 1) + p * (f / p) := by
    rw [mul_comm]
    omega
  rw [harr, Nat.add_mul_div_left _ _ hp]
  have h1 : (f % p + p - 1) / p = 1 :=
    Nat.div_eq_of_lt_le (by omega) (by omega)
  omega

/-- Arithmetic core of the last-piece length: with n = ceil(f/p), the length
min ((n-1)p + p) f - (n-1)p is f mod p, or p when p divides f. -/
theorem last_piece_arith (f p : Nat) (hp : 0 < p) (hf : p ≤ f) :
    min (((f + p - 1) / p - 1) * p + p) f - ((f + p - 1) / p - 1) * p =
      if f % p = 0 then p else f % p := by
  have hqr : f / p * p + f % p = f := Nat.div_add_mod' f p
  have hr : f % p < p := Nat.mod_lt f hp
  have hq1 : 1 ≤ f / p := (Nat.one_le_div_iff hp).mpr hf
  have hple : p ≤ f / p * p := by
    calc p = 1 * p := (one_mul p).symm
    _ ≤ f / p * p := Nat.mul_le_mul_right p hq1
  by_cases hr0 : f % p = 0
  · rw [ceil_div_of_dvd f p hp hr0, if_pos hr0]
    have hmul : (f / p - 1) * p + p = f / p * p := by
      rw [Nat.sub_one_mul]
      omega
    omega
  · rw [ceil_div_of_not_dvd f p hp hr0, if_neg hr0]
    have hcancel : f / p + 1 - 1 = f / p := Nat.add_sub_cancel _ _
    rw [hcancel]
    omega

/-- Arithmetic core of the middle-piece length: for i below ceil(f/p) - 1 the
length min (ip + p) f - ip is exactly p. -/
theorem mid_piece_arith (f p i : Nat) (hp : 0 < p)
    (hi : i < (f + p - 1) / p - 1) :
    min (i * p + p) f - i * p = p := by
  have hqr : f / p * p + f % p = f := Nat.div_add_mod' f p
  have hr : f % p < p := Nat.mod_lt f hp
  have hi1 : i + 1 ≤ f / p := by
    by_cases hr0 : f % p = 0
    · rw [ceil_div_of_dvd f p hp hr0] at hi
      omega
    · rw [ceil_div_of_not_dvd f p hp hr0] at hi
      omega
  have hle : (i + 1) * p ≤ f / p * p := Nat.mul_le_mul_right p hi1
  have hsucc : (i + 1) * p = i * p + p := Nat.succ_mul i p
  omega

/-- C7: for every FileMeta with 0 < pieceSize ≤ fileSize, the last piece's
length is fileSize mod pieceSize when pieceSize does not divide fileSize and
pieceSize when it does, and every earlier piece has length pieceSize. -/
theorem piece_len_boundary (m : FileMeta)
    (hp : 0 < m.piece_size) (hf : m.piece_size ≤ m.file_size) :
    (m.piece_len (m.num_pieces - 1) =
      .ok (if m.file_size % m.piece_size = 0 then m.piece_size
           else m.file_size % m.piece_size)) ∧
    (∀ i, i < m.num_pieces - 1 → m.piece_len i = .ok m.piece_size) := by
  have hn1 : 1 ≤ m.num_pieces := (Nat.one_le_div_iff hp).mpr (by omega)
  constructor
  · rw [FileMeta.piece_len, if_pos (by omega)]
    rw [show m.num_pieces = (m.file_size + m.piece_size - 1) / m.piece_size from rfl]
    rw [last_piece_arith m.file_size m.piece_size hp hf]
  · intro i hi
    rw [FileMeta.piece_len, if_pos (by omega)]
    rw [mid_piece_arith m.file_size m.piece_size i hp hi]

/-- Witness for piece_len_boundary: fileSize 10, pieceSize 4 gives 3 pieces
with lengths 4, 4, 2. -/
theorem piece_len_boundary_witness :
    ((⟨"thefile", 10, 4⟩ : FileMeta).piece_len ((⟨"thefile", 10, 4⟩ : FileMeta).num_pieces - 1) =
      .ok (if (10 : Nat) % 4 = 0 then 4 else 10 % 4)) ∧
    (∀ i, i < (⟨"thefile", 10, 4⟩ : FileMeta).num_pieces - 1 →
      (⟨"thefile", 10, 4⟩ : FileMeta).piece_len i = .ok 4) :=
  piece_len_boundary ⟨"thefile", 10, 4⟩ (by decide) (by decide)

/-! Storage: src/src/p2p/storage.py.  The on-disk file is modelled as a
`List Nat` of bytes carried in the state; `open`/`seek`/`write` become list
surgery at the seek offset. -/

/-- Bit-population count of a natural number, the value of
`bin(b).count("1")`: the sum of the binary digits. -/
def popcount : Nat → Nat
  | 0 => 0
  | n + 1 => (n + 1) % 2 + popcount ((n + 1) / 2)
decreasing_by exact Nat.div_lt_self (Nat.succ_pos n) (by norm_num)

/-- Storage: the piece metadata, the local bitfield bytes, and the bytes of
the backing file. -/
structure Storage where
  meta : FileMeta
  bitfield : List Nat
  file : List Nat
deriving DecidableEq

namespace Storage

/-- Core of `_set_bit(idx, True)` after its range guard:
`bitfield[idx // 8] |= 1 << (7 - idx % 8)`. -/
def orBit (bf : List Nat) (idx : Nat) : List Nat :=
  bf.set (idx / 8) (bf.getD (idx / 8) 0 ||| (1 <<< (7 - idx % 8)))

/-- Core of `_set_bit(idx, False)` after its range guard:
`bitfield[idx // 8] &= ~(1 << (7 - idx % 8))`; on bytes below 256 the
infinite-precision `& ~mask` coincides with `&&& (255 ^^^ mask)`. -/
def clearBit (bf : List Nat) (idx : Nat) : List Nat :=
  bf.set (idx / 8) (bf.getD (idx / 8) 0 &&& (255 ^^^ (1 <<< (7 - idx % 8))))

/-- Storage._set_bit: range-guarded single-bit update (IndexError outside
`0 ≤ idx < num_pieces`). -/
def set_bit (s : Storage) (idx : Nat) (val : Bool) : Except String Storage :=
  if idx < s.meta.num_pieces then
    .ok { s with bitfield := if val then orBit s.bitfield idx else clearBit s.bitfield idx }
  else
    .error "IndexError"

/-- Storage._ensure_target_file: create the file if absent and zero-extend it
to `target_size` bytes when shorter (a no-op when already that long). -/
def ensure_target_file (file : List Nat) (target_size : Nat) : List Nat :=
  if file.length < target_size then
    file ++ List.replicate (target_size - file.length) 0
  else
    file

/-- Storage.__init__: a zeroed bitfield of ceil(num_pieces/8) bytes; a seed
then runs `self._set_bit(i, True)` for every `i < num_pieces` (each call
passes the range guard, so the loop is the fold of the unguarded update),
while a non-seed zero-extends the backing file to file_size bytes.  `disk`
is the pre-existing content of the target path (empty for a fresh file). -/
def init (meta : FileMeta) (has_complete_file : Bool) (disk : List Nat) : Storage :=
  if has_complete_file then
    { meta := meta
      bitfield := (List.range meta.num_pieces).foldl orBit
        (List.replicate ((meta.num_pieces + 7) / 8) 0)
      file := disk }
  else
    { meta := meta
      bitfield := List.replicate ((meta.num_pieces + 7) / 8) 0
      file := ensure_target_file disk meta.file_size }

/-- Storage.has_piece: reads `bitfield[idx // 8]` (IndexError past the end of
the byte array) and masks with `1 << (7 - idx % 8)`. -/
def has_piece (s : Storage) (idx : Nat) : Except String Bool :=
  if idx / 8 < s.bitfield.length then
    .ok (decide (s.bitfield.getD (idx / 8) 0 &&& (1 <<< (7 - idx % 8)) ≠ 0))
  else
    .error "IndexError"

/-- Storage.mark_have: `_set_bit(idx, True)`. -/
def mark_have (s : Storage) (idx : Nat) : Except String Storage :=
  s.set_bit idx true

/-- Storage.count_have: `sum(bin(b).count("1") for b in bitfield)`. -/
def count_have (s : Storage) : Nat :=
  (s.bitfield.map popcount).sum

/-- Storage.raw_bitfield: the bitfield bytes. -/
def raw_bitfield (s : Storage) : List Nat :=
  s.bitfield

/-- Storage.read_piece: seeks to `idx * piece_size`, reads `piece_len idx`
bytes, and raises a short-read IOError when fewer are available. -/
def read_piece (s : Storage) (idx : Nat) : Except String (List Nat) :=
  (s.meta.piece_len idx).bind fun plen =>
    let data := (s.file.drop (idx * s.meta.piece_size)).take plen
    if data.length ≠ plen then
      .error "short read for piece"
    else
      .ok data

/-- Storage.write_piece: raises ValueError ("wrong size for piece ...") when
the content length differs from `piece_len idx`; otherwise ensures the file
is file_size bytes, overwrites the bytes at offset `idx * piece_size`, and
marks the piece present. -/
def write_piece (s : Storage) (idx : Nat) (content : List Nat) : Except String Storage :=
  (s.meta.piece_len idx).bind fun expected =>
    if content.length ≠ expected then
      .error "wrong size for piece"
    else
      let file1 := ensure_target_file s.file s.meta.file_size
      let file2 := file1.take (idx * s.meta.piece_size) ++ content ++
                   file1.drop (idx * s.meta.piece_size + content.length)
      Storage.mark_have { s with file := file2 } idx

end Storage

/-! Bit-manipulation helper lemmas shared by the Bitfield, Storage and Peer
results. -/

theorem one_shiftLeft_eq (k : Nat) : (1 : Nat) <<< k = 2 ^ k := by
  rw [Nat.shiftLeft_eq, one_mul]

theorem and_mask_ne_zero_iff (x k : Nat) :
    (x &&& (1 <<< k) ≠ 0) ↔ x.testBit k = true := by
  rw [one_shiftLeft_eq, Nat.and_two_pow]
  cases h : x.testBit k <;> simp [h, Nat.pow_eq_zero]

theorem testBit_or_mask_self (x k : Nat) : (x ||| (1 <<< k)).testBit k = true := by
  rw [one_shiftLeft_eq, Nat.testBit_or, Nat.testBit_two_pow_self]
  simp

theorem testBit_or_mask_other (x k j : Nat) (h : j ≠ k) :
    (x ||| (1 <<< k)).testBit j = x.testBit j := by
  rw [one_shiftLeft_eq, Nat.testBit_or, Nat.testBit_two_pow_of_ne (Ne.symm h)]
  simp

/-- A valid piece index starts strictly inside the file. -/
theorem start_lt_file_size (m : FileMeta) (hp : 0 < m.piece_size)
    (i : Nat) (hi : i < m.num_pieces) : i * m.piece_size < m.file_size := by
  by_contra hcon
  push_neg at hcon
  have hdiv : (m.file_size + m.piece_size - 1) / m.piece_size < i + 1 := by
    apply Nat.div_lt_of_lt_mul
    have hsucc : m.piece_size * (i + 1) = i * m.piece_size + m.piece_size := by
      rw [mul_comm, Nat.succ_mul]
    omega
  have : m.num_pieces < i + 1 := hdiv
  omega

theorem except_bind_ok {α β : Type} (a : α) (f : α → Except String β) :
    (Except.ok a).bind f = f a := rfl

theorem getD_set_self (l : List Nat) (i a : Nat) (h : i < l.length) :
    (l.set i a).getD i 0 = a := by
  rw [List.getD_eq_getElem _ _ (by simpa using h), List.getElem_set_self]

theorem getD_set_other (l : List Nat) (i j a : Nat) (h : i ≠ j) :
    (l.set i a).getD j 0 = l.getD j 0 := by
  simp [List.getD, List.getElem?_set_ne h]

theorem orBit_length (bf : List Nat) (idx : Nat) :
    (Storage.orBit bf idx).length = bf.length := by
  simp [Storage.orBit]

theorem orBit_getD_self (bf : List Nat) (idx : Nat) (h : idx / 8 < bf.length) :
    (Storage.orBit bf idx).getD (idx / 8) 0 =
      bf.getD (idx / 8) 0 ||| (1 <<< (7 - idx % 8)) :=
  getD_set_self _ _ _ h

theorem orBit_getD_other (bf : List Nat) (idx j : Nat) (h : idx / 8 ≠ j) :
    (Storage.orBit bf idx).getD j 0 = bf.getD j 0 :=
  getD_set_other _ _ _ _ h

/-- After orBit idx, has_piece reads idx as present and every other index
unchanged; shared by the C6 and C9 developments. -/
theorem has_piece_orBit (s : Storage) (idx : Nat) (s2 : Storage)
    (hbf2 : s2.bitfield = Storage.orBit s.bitfield idx)
    (hidx8 : idx / 8 < s.bitfield.length) :
    s2.has_piece idx = .ok true ∧
    (∀ j, j ≠ idx → s2.has_piece j = s.has_piece j) := by
  constructor
  · rw [Storage.has_piece, hbf2, orBit_length, if_pos hidx8,
      orBit_getD_self _ _ hidx8]
    have hne0 : (s.bitfield.getD (idx / 8) 0 ||| (1 <<< (7 - idx % 8))) &&&
        (1 <<< (7 - idx % 8)) ≠ 0 := by
      rw [and_mask_ne_zero_iff]
      exact testBit_or_mask_self _ _
    exact congrArg Except.ok (decide_eq_true hne0)
  · intro j hj
    rw [Storage.has_piece, Storage.has_piece, hbf2, orBit_length]
    by_cases hjl : j / 8 < s.bitfield.length
    · rw [if_pos hjl, if_pos hjl]
      by_cases hsame : idx / 8 = j / 8
      · rw [← hsame, orBit_getD_self _ _ hidx8]
        have hne : 7 - j % 8 ≠ 7 - idx % 8 := by omega
        have hiff : (s.bitfield.getD (idx / 8) 0 ||| (1 <<< (7 - idx % 8))) &&&
            (1 <<< (7 - j % 8)) ≠ 0 ↔
            s.bitfield.getD (idx / 8) 0 &&& (1 <<< (7 - j % 8)) ≠ 0 := by
          rw [and_mask_ne_zero_iff, and_mask_ne_zero_iff,
            testBit_or_mask_other _ _ _ hne]
        rw [hsame] at hiff ⊢
        exact congrArg Except.ok (decide_eq_decide.mpr hiff)
      · rw [orBit_getD_other _ _ _ hsame]
    · rw [if_neg hjl, if_neg hjl]

/-- C6: write_piece with content of the wrong length fails with the
wrong-piece-size ValueError (producing no new state, so the caller's bitfield
is untouched); with content of exactly pieceLen(idx) bytes it succeeds,
leaving the file before offset idx·pieceSize and after
idx·pieceSize + len(content) unchanged, placing content at that offset, and
setting exactly the local presence bit for idx. -/
theorem write_piece_spec (s : Storage) (idx : Nat) (content : List Nat) (plen : Nat)
    (hp : 0 < s.meta.piece_size)
    (hidx : idx < s.meta.num_pieces)
    (hfile : s.file.length = s.meta.file_size)
    (hbf : s.bitfield.length = (s.meta.num_pieces + 7) / 8)
    (hplen : s.meta.piece_len idx = .ok plen) :
    (content.length ≠ plen → s.write_piece idx content = .error "wrong size for piece") ∧
    (content.length = plen → ∃ s2, s.write_piece idx content = .ok s2 ∧
      s2.file.take (idx * s.meta.piece_size) = s.file.take (idx * s.meta.piece_size) ∧
      (s2.file.drop (idx * s.meta.piece_size)).take content.length = content ∧
      s2.file.drop (idx * s.meta.piece_size + content.length) =
        s.file.drop (idx * s.meta.piece_size + content.length) ∧
      s2.has_piece idx = .ok true ∧
      (∀ j, j ≠ idx → s2.has_piece j = s.has_piece j)) := by
  have hstart : idx * s.meta.piece_size < s.meta.file_size :=
    start_lt_file_size s.meta hp idx hidx
  have hplen_val : plen =
      min (idx * s.meta.piece_size + s.meta.piece_size) s.meta.file_size -
        idx * s.meta.piece_size := by
    rw [FileMeta.piece_len, if_pos hidx] at hplen
    exact (Except.ok.injEq _ _).mp hplen.symm
  have hbound : idx * s.meta.piece_size + plen ≤ s.meta.file_size := by omega
  constructor
  · intro hne
    rw [Storage.write_piece, hplen, except_bind_ok, if_pos hne]
  · intro heq
    rw [Storage.write_piece, hplen, except_bind_ok, if_neg (by omega)]
    have hens : Storage.ensure_target_file s.file s.meta.file_size = s.file := by
      rw [Storage.ensure_target_file, if_neg (by omega)]
    rw [hens]
    set off := idx * s.meta.piece_size with hoff
    set file2 := s.file.take off ++ content ++ s.file.drop (off + content.length)
      with hfile2
    have hmark : Storage.mark_have { s with file := file2 } idx =
        .ok { s with file := file2, bitfield := Storage.orBit s.bitfield idx } := by
      rw [Storage.mark_have, Storage.set_bit, if_pos hidx]
      rfl
    rw [hmark]
    refine ⟨_, rfl, ?_, ?_, ?_, ?_, ?_⟩
    · show file2.take off = s.file.take off
      rw [hfile2, List.append_assoc,
        List.take_left' (by rw [List.length_take]; omega)]
    · show (file2.drop off).take content.length = content
      rw [hfile2, List.append_assoc,
        List.drop_left' (by rw [List.length_take]; omega),
        List.take_left' rfl]
    · show file2.drop (off + content.length) = s.file.drop (off + content.length)
      rw [hfile2, List.drop_left' (by simp [List.length_take]; omega)]
    · exact (has_piece_orBit s idx
        { s with file := file2, bitfield := Storage.orBit s.bitfield idx }
        rfl (by omega)).1
    · exact (has_piece_orBit s idx
        { s with file := file2, bitfield := Storage.orBit s.bitfield idx }
        rfl (by omega)).2

/-- Witness for write_piece_spec: a 2-piece file of 6 bytes with pieceSize 4,
writing the last piece (2 bytes). -/
theorem write_piece_spec_witness :
    ((([7, 7] : List Nat).length ≠ 2 →
      (Storage.init ⟨"f", 6, 4⟩ false []).write_piece 1 [7, 7] =
        .error "wrong size for piece") ∧
    (([7, 7] : List Nat).length = 2 →
      ∃ s2, (Storage.init ⟨"f", 6, 4⟩ false []).write_piece 1 [7, 7] = .ok s2 ∧
      s2.file.take (1 * 4) = (Storage.init ⟨"f", 6, 4⟩ false []).file.take (1 * 4) ∧
      (s2.file.drop (1 * 4)).take 2 = [7, 7] ∧
      s2.file.drop (1 * 4 + 2) = (Storage.init ⟨"f", 6, 4⟩ false []).file.drop (1 * 4 + 2) ∧
      s2.has_piece 1 = .ok true ∧
      (∀ j, j ≠ 1 → s2.has_piece j = (Storage.init ⟨"f", 6, 4⟩ false []).has_piece j))) :=
  write_piece_spec (Storage.init ⟨"f", 6, 4⟩ false []) 1 [7, 7] 2
    (by decide) (by decide) (by decide) (by decide) rfl

theorem except_bind_error {α β : Type} (e : String) (f : α → Except String β) :
    (Except.error e : Except String α).bind f = .error e := rfl

/-! Popcount facts used by the C9 bitfield invariant. -/

/-- Popcount counts exactly the set bit positions below any bound 2^m. -/
theorem popcount_eq_card : ∀ n m : Nat, n < 2 ^ m →
    popcount n = ((Finset.range m).filter (fun k => n.testBit k)).card := by
  intro n
  induction n using Nat.strong_induction_on with
  | _ n ih =>
    intro m hm
    rcases n with _ | n
    · simp [popcount, Nat.zero_testBit]
    · rcases m with _ | m
      · simp at hm
      · have hdiv : (n + 1) / 2 < 2 ^ m := by
          have h2 : n + 1 < 2 * 2 ^ m := by
            rw [pow_succ] at hm
            omega
          exact Nat.div_lt_of_lt_mul h2
        have ih2 := ih ((n + 1) / 2) (by omega) m hdiv
        simp only [popcount]
        rw [ih2, Finset.card_filter, Finset.card_filter, Finset.sum_range_succ']
        have hsucc : ∀ k, Nat.testBit (n + 1) (k + 1) = Nat.testBit ((n + 1) / 2) k :=
          fun k => Nat.testBit_succ _ _
        simp only [hsucc, Nat.testBit_zero]
        rcases Nat.mod_two_eq_zero_or_one (n + 1) with h2 | h2 <;>
          rw [h2] <;> simp [Nat.add_comm]

/-- Sum of a mapped list as a Finset.range sum over getD. -/
theorem sum_map_getD (f : Nat → Nat) (l : List Nat) :
    (l.map f).sum = ∑ j ∈ Finset.range l.length, f (l.getD j 0) := by
  induction l with
  | nil => simp
  | cons a t ih =>
    simp only [List.map_cons, List.sum_cons, List.length_cons]
    rw [Finset.sum_range_succ']
    simp only [List.getD_cons_succ, List.getD_cons_zero]
    rw [← ih]
    omega

/-- The C9 invariant on a bitfield for n pieces: canonical byte length,
byte-valued entries, and all padding bits (piece indices ≥ n) clear. -/
def bitfieldInv (n : Nat) (bf : List Nat) : Prop :=
  bf.length = (n + 7) / 8 ∧
  (∀ b ∈ bf, b < 256) ∧
  (∀ i, n ≤ i → i < 8 * bf.length → (bf.getD (i / 8) 0).testBit (7 - i % 8) = false)

theorem bitfieldInv_zeros (n : Nat) :
    bitfieldInv n (List.replicate ((n + 7) / 8) 0) := by
  refine ⟨by simp, ?_, ?_⟩
  · intro b hb
    rw [List.eq_of_mem_replicate hb]
    norm_num
  · intro i h1 h2
    have hz : (List.replicate ((n + 7) / 8) 0).getD (i / 8) 0 = 0 := by
      rcases lt_or_ge (i / 8) ((n + 7) / 8) with h | h
      · rw [List.getD_eq_getElem _ _ (by simpa using h), List.getElem_replicate]
      · exact List.getD_eq_default _ _ (by simpa using h)
    rw [hz, Nat.zero_testBit]

theorem orBit_bitfieldInv (n : Nat) (bf : List Nat) (idx : Nat)
    (h : bitfieldInv n bf) (hidx : idx < n) :
    bitfieldInv n (Storage.orBit bf idx) := by
  obtain ⟨hlen, hbytes, hpad⟩ := h
  have hidx8 : idx / 8 < bf.length := by omega
  refine ⟨by rw [orBit_length, hlen], ?_, ?_⟩
  · intro b hb
    rcases List.mem_or_eq_of_mem_set hb with hmem | hset
    · exact hbytes b hmem
    · subst hset
      have hbyte : bf.getD (idx / 8) 0 < 256 := by
        apply hbytes
        rw [List.getD_eq_getElem _ _ (by simpa using hidx8)]
        exact List.getElem_mem _
      have hmask : (1 : Nat) <<< (7 - idx % 8) < 256 := by
        rw [one_shiftLeft_eq]
        calc (2 : Nat) ^ (7 - idx % 8) ≤ 2 ^ 7 :=
          Nat.pow_le_pow_right (by norm_num) (by omega)
        _ < 256 := by norm_num
      exact Nat.or_lt_two_pow (n := 8) hbyte hmask
  · intro i h1 h2
    rw [orBit_length] at h2
    by_cases hsame : idx / 8 = i / 8
    · rw [← hsame, orBit_getD_self _ _ hidx8]
      have hne : 7 - i % 8 ≠ 7 - idx % 8 := by omega
      rw [testBit_or_mask_other _ _ _ hne, hsame]
      exact hpad i h1 (by omega)
    · rw [orBit_getD_other _ _ _ hsame]
      exact hpad i h1 (by omega)

theorem foldl_orBit_inv (n : Nat) (l : List Nat) (hl : ∀ x ∈ l, x < n)
    (bf : List Nat) (h : bitfieldInv n bf) :
    bitfieldInv n (l.foldl Storage.orBit bf) := by
  induction l generalizing bf with
  | nil => simpa
  | cons a t ih =>
    simp only [List.foldl_cons]
    exact ih (fun x hx => hl x (List.mem_cons_of_mem _ hx)) _
      (orBit_bitfieldInv n bf a h (hl a (List.mem_cons_self _ _)))

/-- The constructor establishes the invariant for both seed and non-seed. -/
theorem init_bitfieldInv (meta : FileMeta) (seed : Bool) (disk : List Nat) :
    bitfieldInv meta.num_pieces (Storage.init meta seed disk).bitfield := by
  rcases seed with _ | _
  · simpa [Storage.init] using bitfieldInv_zeros meta.num_pieces
  · simp only [Storage.init, if_true]
    exact foldl_orBit_inv _ _ (fun x hx => List.mem_range.mp hx) _
      (bitfieldInv_zeros meta.num_pieces)

/-- mark_have preserves the invariant. -/
theorem mark_have_bitfieldInv (s s2 : Storage) (idx : Nat)
    (h : bitfieldInv s.meta.num_pieces s.bitfield)
    (hok : s.mark_have idx = .ok s2) :
    bitfieldInv s2.meta.num_pieces s2.bitfield := by
  rw [Storage.mark_have, Storage.set_bit] at hok
  by_cases hidx : idx < s.meta.num_pieces
  · rw [if_pos hidx] at hok
    have heq := (Except.ok.injEq _ _).mp hok
    subst heq
    exact orBit_bitfieldInv _ _ _ h hidx
  · rw [if_neg hidx] at hok
    exact absurd hok (by simp)

/-- write_piece preserves the invariant. -/
theorem write_piece_bitfieldInv (s s2 : Storage) (idx : Nat) (content : List Nat)
    (h : bitfieldInv s.meta.num_pieces s.bitfield)
    (hok : s.write_piece idx content = .ok s2) :
    bitfieldInv s2.meta.num_pieces s2.bitfield := by
  rw [Storage.write_piece, FileMeta.piece_len] at hok
  by_cases hidx : idx < s.meta.num_pieces
  · rw [if_pos hidx, except_bind_ok] at hok
    by_cases hlen : content.length ≠
        min (idx * s.meta.piece_size + s.meta.piece_size) s.meta.file_size -
          idx * s.meta.piece_size
    · rw [if_pos hlen] at hok
      exact absurd hok (by simp)
    · rw [if_neg hlen] at hok
      refine mark_have_bitfieldInv _ s2 idx ?_ hok
      exact h
  · rw [if_neg hidx, except_bind_error] at hok
    exact absurd hok (by simp)

/-- Under the invariant, count_have (the sum of per-byte popcounts, which is
by definition the popcount of the bitfield) is at most num_pieces. -/
theorem count_have_le_of_inv (s : Storage)
    (h : bitfieldInv s.meta.num_pieces s.bitfield) :
    s.count_have ≤ s.meta.num_pieces := by
  obtain ⟨hlen, hbytes, hpad⟩ := h
  rw [Storage.count_have, sum_map_getD]
  have hpc : ∀ j ∈ Finset.range s.bitfield.length,
      popcount (s.bitfield.getD j 0) =
        ((Finset.range 8).filter (fun k => (s.bitfield.getD j 0).testBit k)).card := by
    intro j hj
    apply popcount_eq_card
    apply hbytes
    rw [List.getD_eq_getElem _ _ (by simpa using Finset.mem_range.mp hj)]
    exact List.getElem_mem _
  rw [Finset.sum_congr rfl hpc, ← Finset.card_sigma]
  have hcard :
      ((Finset.range s.bitfield.length).sigma
        (fun j => (Finset.range 8).filter (fun k => (s.bitfield.getD j 0).testBit k))).card ≤
      (Finset.range s.meta.num_pieces).card := by
    apply Finset.card_le_card_of_injOn (fun σ => 8 * σ.1 + (7 - σ.2))
    · intro σ hσ
      have hm := Finset.mem_sigma.mp hσ
      have h1 : σ.1 < s.bitfield.length := Finset.mem_range.mp hm.1
      have h2 := Finset.mem_filter.mp hm.2
      have hk : σ.2 < 8 := Finset.mem_range.mp h2.1
      have hbit : (s.bitfield.getD σ.1 0).testBit σ.2 = true := h2.2
      rw [Finset.mem_range]
      by_contra hge
      push_neg at hge
      have hdiv : (8 * σ.1 + (7 - σ.2)) / 8 = σ.1 := by omega
      have hmod : 7 - (8 * σ.1 + (7 - σ.2)) % 8 = σ.2 := by omega
      have := hpad (8 * σ.1 + (7 - σ.2)) hge (by omega)
      rw [hdiv, hmod] at this
      rw [hbit] at this
      exact Bool.true_eq_false.mp this
    · intro σ hσ τ hτ hfe
      have hkσ : σ.2 < 8 :=
        Finset.mem_range.mp (Finset.mem_filter.mp (Finset.mem_sigma.mp hσ).2).1
      have hkτ : τ.2 < 8 :=
        Finset.mem_range.mp (Finset.mem_filter.mp (Finset.mem_sigma.mp hτ).2).1
      have hfe2 : 8 * σ.1 + (7 - σ.2) = 8 * τ.1 + (7 - τ.2) := hfe
      have h1 : σ.1 = τ.1 := by omega
      have h2 : σ.2 = τ.2 := by omega
      exact Sigma.ext h1 (heq_of_eq h2)
  calc ((Finset.range s.bitfield.length).sigma _).card ≤
      (Finset.range s.meta.num_pieces).card := hcard
  _ = s.meta.num_pieces := Finset.card_range _

/-- C9: every Storage operation — construction (seed or not), mark_have, and
write_piece — preserves the bitfield invariant (canonical length, byte
entries, padding bits clear), and under that invariant count_have (which is
by definition the popcount of the bitfield bytes) is at most num_pieces and
no reserved padding bit of the last byte is ever set. -/
theorem storage_count_have_invariant :
    (∀ (meta : FileMeta) (seed : Bool) (disk : List Nat),
      bitfieldInv meta.num_pieces (Storage.init meta seed disk).bitfield) ∧
    (∀ (s s2 : Storage) (idx : Nat),
      bitfieldInv s.meta.num_pieces s.bitfield → s.mark_have idx = .ok s2 →
      bitfieldInv s2.meta.num_pieces s2.bitfield) ∧
    (∀ (s s2 : Storage) (idx : Nat) (content : List Nat),
      bitfieldInv s.meta.num_pieces s.bitfield → s.write_piece idx content = .ok s2 →
      bitfieldInv s2.meta.num_pieces s2.bitfield) ∧
    (∀ s : Storage, bitfieldInv s.meta.num_pieces s.bitfield →
      s.count_have ≤ s.meta.num_pieces ∧
      (∀ i, s.meta.num_pieces ≤ i → i < 8 * s.bitfield.length →
        (s.bitfield.getD (i / 8) 0).testBit (7 - i % 8) = false)) :=
  ⟨init_bitfieldInv,
   mark_have_bitfieldInv,
   write_piece_bitfieldInv,
   fun s h => ⟨count_have_le_of_inv s h, h.2.2⟩⟩

/-- Witness for storage_count_have_invariant: a freshly constructed seed for
a 3-piece file already satisfies the invariant, and its count_have is at most
3. -/
theorem storage_count_have_invariant_witness :
    bitfieldInv (FileMeta.num_pieces ⟨"f", 10, 4⟩)
      (Storage.init ⟨"f", 10, 4⟩ true []).bitfield ∧
    (Storage.init ⟨"f", 10, 4⟩ true []).count_have ≤
      (Storage.init ⟨"f", 10, 4⟩ true []).meta.num_pieces :=
  ⟨storage_count_have_invariant.1 ⟨"f", 10, 4⟩ true [],
   (storage_count_have_invariant.2.2.2 (Storage.init ⟨"f", 10, 4⟩ true [])
     (storage_count_have_invariant.1 ⟨"f", 10, 4⟩ true [])).1⟩

/-! PeerCore: src/src/p2p/peer.py.  Outbound traffic is modelled as a list of
(destination peer id, framed message) pairs: the source's make_* helpers
return the encoded frame and Connection.send puts it on the wire; since the
claims are about which messages are sent, the pre-encoding Message value is
recorded.  The `connection` field of NeighborState is represented by the
destination id on each emitted message. -/

namespace Message

/-- Message type constants. -/
def CHOKE : Nat := 0

def UNCHOKE : Nat := 1

def INTERESTED : Nat := 2

def NOT_INTERESTED : Nat := 3

def HAVE : Nat := 4

def BITFIELD : Nat := 5

def REQUEST : Nat := 6

def PIECE : Nat := 7

end Message

/-- make_choke: the CHOKE frame. -/
def make_choke : Message := ⟨Message.CHOKE, []⟩

/-- make_unchoke: the UNCHOKE frame. -/
def make_unchoke : Message := ⟨Message.UNCHOKE, []⟩

/-- make_interested: the INTERESTED frame. -/
def make_interested : Message := ⟨Message.INTERESTED, []⟩

/-- make_not_interested: the NOT_INTERESTED frame. -/
def make_not_interested : Message := ⟨Message.NOT_INTERESTED, []⟩

/-- make_have: HAVE with the 4-byte big-endian piece index. -/
def make_have (piece_index : Nat) : Message := ⟨Message.HAVE, pack32 piece_index⟩

/-- make_bitfield: BITFIELD carrying the raw bitfield bytes. -/
def make_bitfield (b : List Nat) : Message := ⟨Message.BITFIELD, b⟩

/-- make_request: REQUEST with the 4-byte big-endian piece index. -/
def make_request (piece_index : Nat) : Message := ⟨Message.REQUEST, pack32 piece_index⟩

/-- make_piece: PIECE with the 4-byte big-endian index followed by the data. -/
def make_piece (piece_index : Nat) (data : List Nat) : Message :=
  ⟨Message.PIECE, pack32 piece_index ++ data⟩

/-- NeighborState: per-neighbor bookkeeping (bitfield absent until a BITFIELD
message arrives; flags initially choking/not interested; zero download
window). -/
structure NeighborState where
  peer_id : Nat
  bitfield : Option (List Nat) := none
  am_choking : Bool := true
  peer_choking_me : Bool := true
  am_interested : Bool := false
  peer_interested_me : Bool := false
  download_bytes_window : Nat := 0
deriving DecidableEq

/-- Peer: the neighbor map (as an id-keyed list), the optimistic-unchoke
slot, and the owned Storage. -/
structure Peer where
  neighbors : List NeighborState
  optimistic_unchoke_peer_id : Option Nat := none
  storage : Storage
deriving DecidableEq

namespace Peer

/-- Peer._bit_is_set: byte indices past the end read as false. -/
def bit_is_set (bits : List Nat) (idx : Nat) : Bool :=
  if idx / 8 < bits.length then
    decide (bits.getD (idx / 8) 0 &&& (1 <<< (7 - idx % 8)) ≠ 0)
  else
    false

/-- Peer._set_bit_in_bytes: byte indices past the end leave the bytes
unchanged. -/
def set_bit_in_bytes (bits : List Nat) (idx : Nat) : List Nat :=
  if idx / 8 < bits.length then
    bits.set (idx / 8) (bits.getD (idx / 8) 0 ||| (1 <<< (7 - idx % 8)))
  else
    bits

/-- Loop body of _choose_piece_to_request over the remaining indices: first
index the remote has and we lack (`and` short-circuits, so has_piece runs
only when the remote bit is set). -/
def choose_from (storage : Storage) (bf : List Nat) :
    List Nat → Except String (Option Nat)
  | [] => .ok none
  | idx :: rest =>
    if bit_is_set bf idx then
      (storage.has_piece idx).bind fun h =>
        if h then choose_from storage bf rest else .ok (some idx)
    else
      choose_from storage bf rest

/-- Peer._choose_piece_to_request: none when the remote bitfield is unknown,
else the first-useful scan over range(num_pieces). -/
def choose_piece_to_request (storage : Storage) (nb : NeighborState) :
    Except String (Option Nat) :=
  match nb.bitfield with
  | none => .ok none
  | some bf => choose_from storage bf (List.range storage.meta.num_pieces)

/-- Loop body of _has_something_we_want over the remaining indices. -/
def want_from (storage : Storage) (bf : List Nat) :
    List Nat → Except String Bool
  | [] => .ok false
  | idx :: rest =>
    if bit_is_set bf idx then
      (storage.has_piece idx).bind fun h =>
        if h then want_from storage bf rest else .ok true
    else
      want_from storage bf rest

/-- Peer._has_something_we_want. -/
def has_something_we_want (storage : Storage) (nb : NeighborState) :
    Except String Bool :=
  match nb.bitfield with
  | none => .ok false
  | some bf => want_from storage bf (List.range storage.meta.num_pieces)

/-- Peer._request_next_piece: nothing while choked or without a remote
bitfield; otherwise REQUEST the first useful piece, or send NOT_INTERESTED
when interested but nothing is useful. -/
def request_next_piece (storage : Storage) (nb : NeighborState) :
    Except String (NeighborState × List (Nat × Message)) :=
  if nb.peer_choking_me || nb.bitfield.isNone then .ok (nb, [])
  else
    (choose_piece_to_request storage nb).bind fun pc =>
      match pc with
      | none =>
        if nb.am_interested then
          .ok ({ nb with am_interested := false }, [(nb.peer_id, make_not_interested)])
        else
          .ok (nb, [])
      | some i => .ok (nb, [(nb.peer_id, make_request i)])

/-- Peer._handle_choke. -/
def handle_choke (nb : NeighborState) : NeighborState :=
  { nb with peer_choking_me := true }

/-- Peer._handle_unchoke: clear peerChokingMe then try to request. -/
def handle_unchoke (storage : Storage) (nb : NeighborState) :
    Except String (NeighborState × List (Nat × Message)) :=
  request_next_piece storage { nb with peer_choking_me := false }

/-- Peer._handle_interested. -/
def handle_interested (nb : NeighborState) : NeighborState :=
  { nb with peer_interested_me := true }

/-- Peer._handle_not_interested. -/
def handle_not_interested (nb : NeighborState) : NeighborState :=
  { nb with peer_interested_me := false }

/-- Peer._handle_have: silently drop payloads that are not 4 bytes; update
the remote bitfield only when it is already present; then, if we lack the
piece and are not yet interested, set the flag and send INTERESTED. -/
def handle_have (storage : Storage) (nb : NeighborState) (msg : Message) :
    Except String (NeighborState × List (Nat × Message)) :=
  if msg.payload.length ≠ 4 then .ok (nb, [])
  else
    let piece_index := unpack32 msg.payload
    let nb1 := match nb.bitfield with
      | some bf => { nb with bitfield := some (set_bit_in_bytes bf piece_index) }
      | none => nb
    (storage.has_piece piece_index).bind fun h =>
      if !h && !nb1.am_interested then
        .ok ({ nb1 with am_interested := true }, [(nb1.peer_id, make_interested)])
      else
        .ok (nb1, [])

/-- Peer._handle_bitfield: replace the remote bitfield, then re-signal
interest. -/
def handle_bitfield (storage : Storage) (nb : NeighborState) (msg : Message) :
    Except String (NeighborState × List (Nat × Message)) :=
  let nb1 := { nb with bitfield := some msg.payload }
  (has_something_we_want storage nb1).bind fun w =>
    if w then
      if !nb1.am_interested then
        .ok ({ nb1 with am_interested := true }, [(nb1.peer_id, make_interested)])
      else
        .ok (nb1, [])
    else
      if nb1.am_interested then
        .ok ({ nb1 with am_interested := false }, [(nb1.peer_id, make_not_interested)])
      else
        .ok (nb1, [])

/-- Peer._handle_request: silently drop payloads that are not 4 bytes; drop
while choking the requester; serve the piece when held. -/
def handle_request (storage : Storage) (nb : NeighborState) (msg : Message) :
    Except String (List (Nat × Message)) :=
  if msg.payload.length ≠ 4 then .ok []
  else
    let piece_index := unpack32 msg.payload
    if nb.am_choking then .ok []
    else
      (storage.has_piece piece_index).bind fun h =>
        if h then
          (storage.read_piece piece_index).bind fun data =>
            .ok [(nb.peer_id, make_piece piece_index data)]
        else
          .ok []

/-- In-place mutation of one neighbor of the dict, as a keyed update. -/
def update_neighbor (l : List NeighborState) (nb : NeighborState) :
    List NeighborState :=
  l.map fun m => if m.peer_id = nb.peer_id then nb else m

/-- Peer.broadcast_have: send HAVE(piece_index) to every current neighbor. -/
def broadcast_have (p : Peer) (piece_index : Nat) : List (Nat × Message) :=
  p.neighbors.map fun nb => (nb.peer_id, make_have piece_index)

/-- Peer.is_complete. -/
def is_complete (p : Peer) : Bool :=
  p.storage.count_have == p.storage.meta.num_pieces

/-- Peer._handle_piece: silently drop payloads shorter than 4 bytes; write
the piece, count the bytes, broadcast HAVE to everyone, then request the
next piece from the sender unless complete. -/
def handle_piece (p : Peer) (nb : NeighborState) (msg : Message) :
    Except String (Peer × List (Nat × Message)) :=
  if msg.payload.length < 4 then .ok (p, [])
  else
    let piece_index := unpack32 (msg.payload.take 4)
    let piece_data := msg.payload.drop 4
    (p.storage.write_piece piece_index piece_data).bind fun storage2 =>
      let nb1 := { nb with
        download_bytes_window := nb.download_bytes_window + piece_data.length }
      let p1 : Peer := { p with storage := storage2
                                neighbors := update_neighbor p.neighbors nb1 }
      let haves := broadcast_have p1 piece_index
      if is_complete p1 then .ok (p1, haves)
      else
        (request_next_piece storage2 nb1).bind fun r =>
          .ok ({ p1 with neighbors := update_neighbor p1.neighbors r.1 }, haves ++ r.2)

/-- Peer.on_message: dispatch on the message type for a known neighbor;
unknown peer ids and unknown message types are dropped silently (the latter
with only a log line). -/
def on_message (p : Peer) (remote_id : Nat) (msg : Message) :
    Except String (Peer × List (Nat × Message)) :=
  match p.neighbors.find? (fun nb => nb.peer_id == remote_id) with
  | none => .ok (p, [])
  | some nb =>
    if msg.message_type = Message.CHOKE then
      .ok ({ p with neighbors := update_neighbor p.neighbors (handle_choke nb) }, [])
    else if msg.message_type = Message.UNCHOKE then
      (handle_unchoke p.storage nb).bind fun r =>
        .ok ({ p with neighbors := update_neighbor p.neighbors r.1 }, r.2)
    else if msg.message_type = Message.INTERESTED then
      .ok ({ p with neighbors := update_neighbor p.neighbors (handle_interested nb) }, [])
    else if msg.message_type = Message.NOT_INTERESTED then
      .ok ({ p with neighbors := update_neighbor p.neighbors (handle_not_interested nb) }, [])
    else if msg.message_type = Message.HAVE then
      (handle_have p.storage nb msg).bind fun r =>
        .ok ({ p with neighbors := update_neighbor p.neighbors r.1 }, r.2)
    else if msg.message_type = Message.BITFIELD then
      (handle_bitfield p.storage nb msg).bind fun r =>
        .ok ({ p with neighbors := update_neighbor p.neighbors r.1 }, r.2)
    else if msg.message_type = Message.REQUEST then
      (handle_request p.storage nb msg).bind fun ms => .ok (p, ms)
    else if msg.message_type = Message.PIECE then
      handle_piece p nb msg
    else
      .ok (p, [])

/-- Per-neighbor body of set_preferred_neighbors: UNCHOKE when newly in the
unchoked set, CHOKE when newly out, silence otherwise. -/
def choke_step (preferred : List Nat) (opt : Option Nat) (nb : NeighborState) :
    NeighborState × List (Nat × Message) :=
  let should_unchoke := preferred.contains nb.peer_id || opt == some nb.peer_id
  if should_unchoke && nb.am_choking then
    ({ nb with am_choking := false }, [(nb.peer_id, make_unchoke)])
  else if !should_unchoke && !nb.am_choking then
    ({ nb with am_choking := true }, [(nb.peer_id, make_choke)])
  else
    (nb, [])

/-- The loop of set_preferred_neighbors over the whole neighbor map. -/
def choke_pass (preferred : List Nat) (opt : Option Nat) :
    List NeighborState → List NeighborState × List (Nat × Message)
  | [] => ([], [])
  | nb :: rest =>
    let r := choke_step preferred opt nb
    let r2 := choke_pass preferred opt rest
    (r.1 :: r2.1, r.2 ++ r2.2)

/-- Peer.set_preferred_neighbors: unchoke the preferred ids plus the current
optimistic slot, choke the rest. -/
def set_preferred_neighbors (p : Peer) (preferred_peer_ids : List Nat) :
    Peer × List (Nat × Message) :=
  let r := choke_pass preferred_peer_ids p.optimistic_unchoke_peer_id p.neighbors
  ({ p with neighbors := r.1 }, r.2)

/-- Peer.set_optimistic_unchoke: store the new slot, then re-apply the choke
decisions with the currently unchoked ids as the preferred list. -/
def set_optimistic_unchoke (p : Peer) (peer_id : Option Nat) :
    Peer × List (Nat × Message) :=
  let p1 := { p with optimistic_unchoke_peer_id := peer_id }
  set_preferred_neighbors p1
    ((p1.neighbors.filter (fun nb => !nb.am_choking)).map (fun nb => nb.peer_id))

/-- Peer.get_and_reset_download_stats. -/
def get_and_reset_download_stats (p : Peer) : Peer × List (Nat × Nat) :=
  ({ p with neighbors :=
      p.neighbors.map (fun nb => { nb with download_bytes_window := 0 }) },
   p.neighbors.map (fun nb => (nb.peer_id, nb.download_bytes_window)))

end Peer

theorem choke_step_fst (P : List Nat) (opt : Option Nat) (nb : NeighborState) :
    (Peer.choke_step P opt nb).1 =
      { nb with am_choking := !(P.contains nb.peer_id || opt == some nb.peer_id) } := by
  obtain ⟨pid, bf, amc, pcm, ami, pim, dbw⟩ := nb
  rcases h1 : (P.contains pid || opt == some pid) with _ | _ <;>
    rcases amc with _ | _ <;>
      simp only [Peer.choke_step, h1] <;> simp

theorem choke_pass_fst (P : List Nat) (opt : Option Nat) (l : List NeighborState) :
    (Peer.choke_pass P opt l).1 = l.map (fun nb => (Peer.choke_step P opt nb).1) := by
  induction l with
  | nil => rfl
  | cons nb rest ih => simp [Peer.choke_pass, ih]

theorem choke_step_peer_id (P : List Nat) (opt : Option Nat) (nb : NeighborState) :
    (Peer.choke_step P opt nb).1.peer_id = nb.peer_id := by
  rw [choke_step_fst]

theorem choke_step_am_choking (P : List Nat) (opt : Option Nat) (nb : NeighborState) :
    (Peer.choke_step P opt nb).1.am_choking =
      !(P.contains nb.peer_id || opt == some nb.peer_id) := by
  rw [choke_step_fst]

/-- With id-unique neighbors, an id is among the unchoked ids exactly when
its own entry is unchoked. -/
theorem mem_unchoked_ids (l : List NeighborState)
    (hnd : (l.map NeighborState.peer_id).Nodup)
    (nb : NeighborState) (hm : nb ∈ l) :
    (nb.peer_id ∈ (l.filter (fun x => !x.am_choking)).map NeighborState.peer_id) ↔
      nb.am_choking = false := by
  constructor
  · intro h
    obtain ⟨m, hm2, hpid⟩ := List.mem_map.mp h
    have hm3 := List.mem_filter.mp hm2
    have hmeq : m = nb := List.inj_on_of_nodup_map hnd hm3.1 hm hpid
    have := hm3.2
    rw [hmeq] at this
    simpa using this
  · intro h
    exact List.mem_map.mpr ⟨nb, List.mem_filter.mpr ⟨hm, by simp [h]⟩, rfl⟩

/-- C1 counterexample: two neighbors 2 and 3, current optimistic slot 3, all
choked.  setPreferredNeighbors([2]) unchokes 2 (preferred) and 3 (current
optimistic slot); setOptimisticUnchokeSlot(5) re-applies the choke decisions
using the currently unchoked ids [2, 3] as the preferred list, so 3 stays
unchoked although 3 ∉ {2} ∪ {5}: the claimed biconditional fails. -/
theorem set_preferred_then_optimistic_counterexample :
    ¬ (∀ n ∈ (Peer.set_optimistic_unchoke
          (Peer.set_preferred_neighbors
            ⟨[⟨2, none, true, true, false, false, 0⟩,
              ⟨3, none, true, true, false, false, 0⟩],
             some 3, ⟨⟨"f", 1, 1⟩, [0], [0]⟩⟩
            [2]).1
          (some 5)).1.neighbors,
        (n.am_choking = false ↔ (n.peer_id ∈ [2] ∨ n.peer_id = 5))) := by
  decide

/-- C1 amended: after setPreferredNeighbors(P) followed by
setOptimisticUnchokeSlot(o) on an id-unique neighbor map, a neighbor is
unchoked iff its id is in P, or equals o, or equals the optimistic slot that
was current when setPreferredNeighbors ran (the re-application reads the
then-current unchoked set, which keeps the stale optimistic peer unchoked). -/
theorem set_preferred_then_optimistic (p : Peer) (P : List Nat) (o : Nat)
    (hnd : (p.neighbors.map NeighborState.peer_id).Nodup) :
    ∀ n ∈ (Peer.set_optimistic_unchoke (Peer.set_preferred_neighbors p P).1
        (some o)).1.neighbors,
      (n.am_choking = false ↔
        (n.peer_id ∈ P ∨ n.peer_id = o ∨
         p.optimistic_unchoke_peer_id = some n.peer_id)) := by
  intro n hn
  have hp1n : (Peer.set_preferred_neighbors p P).1.neighbors =
      p.neighbors.map
        (fun nb => (Peer.choke_step P p.optimistic_unchoke_peer_id nb).1) := by
    simp [Peer.set_preferred_neighbors, choke_pass_fst]
  have hp1o : (Peer.set_preferred_neighbors p P).1.optimistic_unchoke_peer_id =
      p.optimistic_unchoke_peer_id := rfl
  have hres : (Peer.set_optimistic_unchoke (Peer.set_preferred_neighbors p P).1
      (some o)).1.neighbors =
      (Peer.set_preferred_neighbors p P).1.neighbors.map
        (fun nb => (Peer.choke_step
          (((Peer.set_preferred_neighbors p P).1.neighbors.filter
              (fun x => !x.am_choking)).map NeighborState.peer_id)
          (some o) nb).1) := by
    simp [Peer.set_optimistic_unchoke, Peer.set_preferred_neighbors, choke_pass_fst]
  rw [hres] at hn
  obtain ⟨n1, hn1, rfl⟩ := List.mem_map.mp hn
  have hnd1 : ((Peer.set_preferred_neighbors p P).1.neighbors.map
      NeighborState.peer_id).Nodup := by
    rw [hp1n, List.map_map]
    have : (NeighborState.peer_id ∘
        fun nb => (Peer.choke_step P p.optimistic_unchoke_peer_id nb).1) =
        NeighborState.peer_id := by
      funext nb
      exact choke_step_peer_id _ _ _
    rw [this]
    exact hnd
  have hL := mem_unchoked_ids _ hnd1 n1 hn1
  rw [hp1n] at hn1
  obtain ⟨m, hm, rfl⟩ := List.mem_map.mp hn1
  have hmid : (Peer.choke_step P p.optimistic_unchoke_peer_id m).1.peer_id =
      m.peer_id := choke_step_peer_id _ _ _
  have hmac : (Peer.choke_step P p.optimistic_unchoke_peer_id m).1.am_choking =
      !(P.contains m.peer_id || p.optimistic_unchoke_peer_id == some m.peer_id) :=
    choke_step_am_choking _ _ _
  rw [hmid, hmac] at hL
  have hL2 : m.peer_id ∈ (((Peer.set_preferred_neighbors p P).1.neighbors.filter
      (fun x => !x.am_choking)).map NeighborState.peer_id) ↔
      (m.peer_id ∈ P ∨ p.optimistic_unchoke_peer_id = some m.peer_id) := by
    rw [hL]
    simp
    tauto
  have houtid : (Peer.choke_step
      (((Peer.set_preferred_neighbors p P).1.neighbors.filter
          (fun x => !x.am_choking)).map NeighborState.peer_id)
      (some o) ((Peer.choke_step P p.optimistic_unchoke_peer_id m).1)).1.peer_id =
      m.peer_id := by
    rw [choke_step_peer_id, hmid]
  have houtac : (Peer.choke_step
      (((Peer.set_preferred_neighbors p P).1.neighbors.filter
          (fun x => !x.am_choking)).map NeighborState.peer_id)
      (some o) ((Peer.choke_step P p.optimistic_unchoke_peer_id m).1)).1.am_choking =
      !((((Peer.set_preferred_neighbors p P).1.neighbors.filter
          (fun x => !x.am_choking)).map NeighborState.peer_id).contains m.peer_id ||
        some o == some m.peer_id) := by
    rw [choke_step_am_choking, hmid]
  rw [houtid, houtac]
  simp only [Bool.not_eq_false', Bool.or_eq_true, beq_iff_eq, Option.some.injEq,
    List.elem_eq_mem, decide_eq_true_eq]
  rw [hL2]
  constructor
  · rintro ((h | h) | h)
    · exact Or.inl h
    · exact Or.inr (Or.inr h)
    · exact Or.inr (Or.inl h.symm)
  · rintro (h | h | h)
    · exact Or.inl (Or.inl h)
    · exact Or.inr h.symm
    · exact Or.inl (Or.inr h)

/-- Witness for set_preferred_then_optimistic: a single choked neighbor 2
with an empty optimistic slot, P = [2], o = 7; the theorem applied to the
resulting (now unchoked) entry for neighbor 2. -/
theorem set_preferred_then_optimistic_witness :
    ((⟨2, none, false, true, false, false, 0⟩ : NeighborState).am_choking = false ↔
      ((⟨2, none, false, true, false, false, 0⟩ : NeighborState).peer_id ∈ [2] ∨
       (⟨2, none, false, true, false, false, 0⟩ : NeighborState).peer_id = 7 ∨
       (⟨[⟨2, none, true, true, false, false, 0⟩], none,
         ⟨⟨"f", 1, 1⟩, [0], [0]⟩⟩ : Peer).optimistic_unchoke_peer_id =
           some (⟨2, none, false, true, false, false, 0⟩ : NeighborState).peer_id)) :=
  set_preferred_then_optimistic
    ⟨[⟨2, none, true, true, false, false, 0⟩], none, ⟨⟨"f", 1, 1⟩, [0], [0]⟩⟩
    [2] 7 (by decide)
    ⟨2, none, false, true, false, false, 0⟩ (by decide)

/-- Replacing a neighbor by itself in an id-unique map is a no-op. -/
theorem update_neighbor_found (l : List NeighborState) (nb : NeighborState)
    (hnd : (l.map NeighborState.peer_id).Nodup) (hm : nb ∈ l) :
    Peer.update_neighbor l nb = l := by
  rw [Peer.update_neighbor]
  conv_rhs => rw [← List.map_id l]
  apply List.map_congr_left
  intro m hm2
  by_cases h : m.peer_id = nb.peer_id
  · have hmeq : m = nb := List.inj_on_of_nodup_map hnd hm2 hm h
    simp [h, hmeq]
  · simp [h]

/-- C10: on an id-unique neighbor map, on_message returns the state unchanged
and sends nothing for a HAVE or REQUEST whose payload is not exactly 4 bytes,
and for a PIECE whose payload is shorter than 4 bytes — the handlers return
before any state change or send. -/
theorem on_message_drops_short_payloads (p : Peer) (rid : Nat) (msg : Message)
    (hnd : (p.neighbors.map NeighborState.peer_id).Nodup)
    (hcase : ((msg.message_type = Message.HAVE ∨ msg.message_type = Message.REQUEST) ∧
        msg.payload.length ≠ 4) ∨
      (msg.message_type = Message.PIECE ∧ msg.payload.length < 4)) :
    Peer.on_message p rid msg = .ok (p, []) := by
  rcases hfind : p.neighbors.find? (fun nb => nb.peer_id == rid) with _ | nb
  · simp [Peer.on_message, hfind]
  · have hm : nb ∈ p.neighbors := List.mem_of_find?_eq_some hfind
    rcases hcase with ⟨htype, hlen⟩ | ⟨htype, hlen⟩
    · rcases htype with h4 | h6
      · simp only [Peer.on_message, hfind, h4, Message.HAVE, Message.CHOKE,
          Message.UNCHOKE, Message.INTERESTED, Message.NOT_INTERESTED]
        norm_num
        rw [Peer.handle_have, if_pos hlen]
        simp only [except_bind_ok]
        rw [update_neighbor_found p.neighbors nb hnd hm]
      · simp only [Peer.on_message, hfind, h6, Message.REQUEST, Message.CHOKE,
          Message.UNCHOKE, Message.INTERESTED, Message.NOT_INTERESTED,
          Message.HAVE, Message.BITFIELD]
        norm_num
        rw [Peer.handle_request, if_pos hlen]
        simp only [except_bind_ok]
    · simp only [Peer.on_message, hfind, htype, Message.PIECE, Message.CHOKE,
        Message.UNCHOKE, Message.INTERESTED, Message.NOT_INTERESTED,
        Message.HAVE, Message.BITFIELD, Message.REQUEST]
      norm_num
      rw [Peer.handle_piece, if_pos hlen]

/-- Witness for on_message_drops_short_payloads: one neighbor, a HAVE with a
3-byte payload. -/
theorem on_message_drops_short_payloads_witness :
    Peer.on_message
      ⟨[⟨2, none, true, true, false, false, 0⟩], none, ⟨⟨"f", 1, 1⟩, [0], [0]⟩⟩
      2 ⟨Message.HAVE, [0, 0, 0]⟩ =
      .ok (⟨[⟨2, none, true, true, false, false, 0⟩], none,
        ⟨⟨"f", 1, 1⟩, [0], [0]⟩⟩, []) :=
  on_message_drops_short_payloads
    ⟨[⟨2, none, true, true, false, false, 0⟩], none, ⟨⟨"f", 1, 1⟩, [0], [0]⟩⟩
    2 ⟨Message.HAVE, [0, 0, 0]⟩ (by decide) (by decide)

/-- set_bit_in_bytes with an in-range byte index records the bit and changes
no other bit. -/
theorem set_bit_in_bytes_spec (bf : List Nat) (i : Nat) (hbfl : i / 8 < bf.length) :
    Peer.bit_is_set (Peer.set_bit_in_bytes bf i) i = true ∧
    (∀ j, j ≠ i → Peer.bit_is_set (Peer.set_bit_in_bytes bf i) j = Peer.bit_is_set bf j) := by
  have hsb : Peer.set_bit_in_bytes bf i = Storage.orBit bf i := by
    rw [Peer.set_bit_in_bytes, if_pos hbfl]
    rfl
  constructor
  · rw [hsb, Peer.bit_is_set]
    simp only [orBit_length]
    rw [if_pos hbfl, orBit_getD_self _ _ hbfl]
    exact decide_eq_true ((and_mask_ne_zero_iff _ _).mpr (testBit_or_mask_self _ _))
  · intro j hj
    rw [hsb, Peer.bit_is_set, Peer.bit_is_set]
    simp only [orBit_length]
    by_cases hjl : j / 8 < bf.length
    · rw [if_pos hjl, if_pos hjl]
      by_cases hsame : i / 8 = j / 8
      · rw [← hsame, orBit_getD_self _ _ hbfl]
        have hne : 7 - j % 8 ≠ 7 - i % 8 := by omega
        apply decide_eq_decide.mpr
        rw [and_mask_ne_zero_iff, and_mask_ne_zero_iff,
          testBit_or_mask_other _ _ _ hne, hsame]
      · rw [orBit_getD_other _ _ _ hsame]
    · rw [if_neg hjl, if_neg hjl]

/-- handle_have on a 4-byte HAVE payload whose piece index lies inside the
local bitfield's byte range. -/
theorem handle_have_cases (storage : Storage) (nb : NeighborState) (payload : List Nat)
    (hlen : payload.length = 4)
    (hbyte : unpack32 payload / 8 < storage.bitfield.length) :
    ∃ nb2 msgs, Peer.handle_have storage nb ⟨Message.HAVE, payload⟩ = .ok (nb2, msgs) ∧
      nb2.peer_id = nb.peer_id ∧
      (nb.bitfield = none → nb2.bitfield = none) ∧
      (∀ bf, nb.bitfield = some bf →
        nb2.bitfield = some (Peer.set_bit_in_bytes bf (unpack32 payload))) ∧
      ((storage.has_piece (unpack32 payload) = .ok false ∧ nb.am_interested = false) →
        nb2.am_interested = true ∧ msgs = [(nb.peer_id, make_interested)]) ∧
      ((storage.has_piece (unpack32 payload) = .ok true ∨ nb.am_interested = true) →
        nb2.am_interested = nb.am_interested ∧ msgs = []) := by
  have hhp : storage.has_piece (unpack32 payload) =
      .ok (decide (storage.bitfield.getD (unpack32 payload / 8) 0 &&&
        (1 <<< (7 - unpack32 payload % 8)) ≠ 0)) := by
    rw [Storage.has_piece, if_pos hbyte]
  have hstep : Peer.handle_have storage nb ⟨Message.HAVE, payload⟩ =
      (let nb1 := match nb.bitfield with
        | some bf => { nb with bitfield := some (Peer.set_bit_in_bytes bf (unpack32 payload)) }
        | none => nb
      if !(decide (storage.bitfield.getD (unpack32 payload / 8) 0 &&&
            (1 <<< (7 - unpack32 payload % 8)) ≠ 0)) && !nb1.am_interested then
        .ok ({ nb1 with am_interested := true }, [(nb1.peer_id, make_interested)])
      else
        .ok (nb1, [])) := by
    simp only [Peer.handle_have]
    rw [if_neg (fun h => h hlen), hhp]
    rfl
  rcases hbf : nb.bitfield with _ | bf
  all_goals rw [hbf] at hstep
  all_goals simp only at hstep
  all_goals rcases hb : decide (storage.bitfield.getD (unpack32 payload / 8) 0 &&&
      (1 <<< (7 - unpack32 payload % 8)) ≠ 0) with _ | _
  all_goals rcases hc : nb.am_interested with _ | _
  all_goals rw [hb, hc] at hstep
  all_goals simp only [Bool.not_false, Bool.not_true, Bool.and_false, Bool.and_true,
    Bool.false_and, Bool.true_and, if_true, if_false] at hstep
  -- eight cases: bitfield absent/present x piece missing/held x interest flag
  · refine ⟨_, _, hstep, rfl, ?_, ?_, ?_, ?_⟩
    · intro _
      exact hbf
    · intro bf2 hsome
      cases hsome
    · intro _
      exact ⟨by first
        | rfl
        | exact hc, rfl⟩
    · intro h
      rcases h with h | h
      · rw [hhp, hb] at h
        simp at h
      · cases h
  · refine ⟨_, _, hstep, rfl, ?_, ?_, ?_, ?_⟩
    · intro _
      exact hbf
    · intro bf2 hsome
      cases hsome
    · intro h
      cases h.2
    · intro _
      exact ⟨by first
        | rfl
        | exact hc, rfl⟩
  · refine ⟨_, _, hstep, rfl, ?_, ?_, ?_, ?_⟩
    · intro _
      exact hbf
    · intro bf2 hsome
      cases hsome
    · intro h
      rw [hhp, hb] at h
      simp at h
    · intro _
      exact ⟨by first
        | rfl
        | exact hc, rfl⟩
  · refine ⟨_, _, hstep, rfl, ?_, ?_, ?_, ?_⟩
    · intro _
      exact hbf
    · intro bf2 hsome
      cases hsome
    · intro h
      cases h.2
    · intro _
      exact ⟨by first
        | rfl
        | exact hc, rfl⟩
  · refine ⟨_, _, hstep, rfl, ?_, ?_, ?_, ?_⟩
    · intro habs
      cases habs
    · intro bf2 hsome
      cases hsome
      rfl
    · intro _
      exact ⟨by first
        | rfl
        | exact hc, rfl⟩
    · intro h
      rcases h with h | h
      · rw [hhp, hb] at h
        simp at h
      · cases h
  · refine ⟨_, _, hstep, rfl, ?_, ?_, ?_, ?_⟩
    · intro habs
      cases habs
    · intro bf2 hsome
      cases hsome
      rfl
    · intro h
      cases h.2
    · intro _
      exact ⟨by first
        | rfl
        | exact hc, rfl⟩
  · refine ⟨_, _, hstep, rfl, ?_, ?_, ?_, ?_⟩
    · intro habs
      cases habs
    · intro bf2 hsome
      cases hsome
      rfl
    · intro h
      rw [hhp, hb] at h
      simp at h
    · intro _
      exact ⟨by first
        | rfl
        | exact hc, rfl⟩
  · refine ⟨_, _, hstep, rfl, ?_, ?_, ?_, ?_⟩
    · intro habs
      cases habs
    · intro bf2 hsome
      cases hsome
      rfl
    · intro h
      cases h.2
    · intro _
      exact ⟨by first
        | rfl
        | exact hc, rfl⟩

/-- The on_message dispatcher routes a HAVE to _handle_have and applies the
returned neighbor state. -/
theorem on_message_have_dispatch (p : Peer) (rid : Nat) (nb : NeighborState)
    (msg : Message)
    (hfind : p.neighbors.find? (fun x => x.peer_id == rid) = some nb)
    (h4 : msg.message_type = Message.HAVE) :
    Peer.on_message p rid msg = (Peer.handle_have p.storage nb msg).bind fun r =>
      .ok ({ p with neighbors := Peer.update_neighbor p.neighbors r.1 }, r.2) := by
  simp only [Peer.on_message, hfind, h4, Message.HAVE, Message.CHOKE,
    Message.UNCHOKE, Message.INTERESTED, Message.NOT_INTERESTED]
  norm_num

/-- C8 counterexample: a known neighbor whose remote bitfield is absent is
sent HAVE(0); the local store lacks piece 0 and the peer is not yet
interested, so the handler sets amInterested and sends INTERESTED — but the
neighbor's remote bitfield is NOT created: it remains absent, violating the
claim that the handler records piece i, creating the bitfield if absent. -/
theorem handle_have_no_create_counterexample :
    Peer.on_message
      ⟨[⟨2, none, true, true, false, false, 0⟩], none, ⟨⟨"f", 1, 1⟩, [0], [0]⟩⟩
      2 ⟨Message.HAVE, [0, 0, 0, 0]⟩ =
      .ok (⟨[⟨2, none, true, true, true, false, 0⟩], none,
        ⟨⟨"f", 1, 1⟩, [0], [0]⟩⟩, [(2, make_interested)]) ∧
    (Peer.on_message
      ⟨[⟨2, none, true, true, false, false, 0⟩], none, ⟨⟨"f", 1, 1⟩, [0], [0]⟩⟩
      2 ⟨Message.HAVE, [0, 0, 0, 0]⟩).map
        (fun r => r.1.neighbors.map NeighborState.bitfield) = .ok [none] := by
  constructor <;> rfl

/-- C8 amended: on a HAVE from a known neighbor with a 4-byte payload whose
index i lies inside the local bitfield's byte range, on_message updates that
neighbor's remote bitfield to record piece i only when a bitfield is already
present (an absent bitfield remains absent, it is not created); and when the
local store lacks piece i and amInterested is false it sets amInterested and
sends INTERESTED to that neighbor, otherwise it changes no interest flag and
sends nothing. -/
theorem on_message_have_spec (p : Peer) (rid : Nat) (nb : NeighborState)
    (payload : List Nat)
    (hfind : p.neighbors.find? (fun x => x.peer_id == rid) = some nb)
    (hlen : payload.length = 4)
    (hbyte : unpack32 payload / 8 < p.storage.bitfield.length) :
    ∃ nb2 msgs, Peer.on_message p rid ⟨Message.HAVE, payload⟩ =
        .ok ({ p with neighbors := Peer.update_neighbor p.neighbors nb2 }, msgs) ∧
      nb2.peer_id = nb.peer_id ∧
      (nb.bitfield = none → nb2.bitfield = none) ∧
      (∀ bf, nb.bitfield = some bf →
        nb2.bitfield = some (Peer.set_bit_in_bytes bf (unpack32 payload)) ∧
        (unpack32 payload / 8 < bf.length →
          Peer.bit_is_set (Peer.set_bit_in_bytes bf (unpack32 payload))
            (unpack32 payload) = true ∧
          (∀ j, j ≠ unpack32 payload →
            Peer.bit_is_set (Peer.set_bit_in_bytes bf (unpack32 payload)) j =
              Peer.bit_is_set bf j))) ∧
      ((p.storage.has_piece (unpack32 payload) = .ok false ∧
          nb.am_interested = false) →
        nb2.am_interested = true ∧ msgs = [(nb.peer_id, make_interested)]) ∧
      ((p.storage.has_piece (unpack32 payload) = .ok true ∨
          nb.am_interested = true) →
        nb2.am_interested = nb.am_interested ∧ msgs = []) := by
  obtain ⟨nb2, msgs, heq, hpid, hnone, hsome, hsend, hsilent⟩ :=
    handle_have_cases p.storage nb payload hlen hbyte
  refine ⟨nb2, msgs, ?_, hpid, hnone, ?_, hsend, hsilent⟩
  · rw [on_message_have_dispatch p rid nb _ hfind rfl, heq, except_bind_ok]
  · intro bf hbf
    refine ⟨hsome bf hbf, fun hbfl => ?_⟩
    exact ⟨(set_bit_in_bytes_spec bf (unpack32 payload) hbfl).1,
      (set_bit_in_bytes_spec bf (unpack32 payload) hbfl).2⟩

/-- Witness for on_message_have_spec: one neighbor with a present remote
bitfield, HAVE(0) on a 1-piece store. -/
theorem on_message_have_spec_witness :
    ∃ nb2 msgs, Peer.on_message
        ⟨[⟨2, some [0], true, true, false, false, 0⟩], none,
          ⟨⟨"f", 1, 1⟩, [0], [0]⟩⟩ 2 ⟨Message.HAVE, [0, 0, 0, 0]⟩ =
        .ok (⟨Peer.update_neighbor [⟨2, some [0], true, true, false, false, 0⟩] nb2,
          none, ⟨⟨"f", 1, 1⟩, [0], [0]⟩⟩, msgs) ∧
      nb2.peer_id = 2 ∧
      ((some [0] : Option (List Nat)) = none → nb2.bitfield = none) ∧
      (∀ bf, (some [0] : Option (List Nat)) = some bf →
        nb2.bitfield = some (Peer.set_bit_in_bytes bf (unpack32 [0, 0, 0, 0])) ∧
        (unpack32 [0, 0, 0, 0] / 8 < bf.length →
          Peer.bit_is_set (Peer.set_bit_in_bytes bf (unpack32 [0, 0, 0, 0]))
            (unpack32 [0, 0, 0, 0]) = true ∧
          (∀ j, j ≠ unpack32 [0, 0, 0, 0] →
            Peer.bit_is_set (Peer.set_bit_in_bytes bf (unpack32 [0, 0, 0, 0])) j =
              Peer.bit_is_set bf j))) ∧
      ((Storage.has_piece ⟨⟨"f", 1, 1⟩, [0], [0]⟩ (unpack32 [0, 0, 0, 0]) =
          .ok false ∧ false = false) →
        nb2.am_interested = true ∧ msgs = [(2, make_interested)]) ∧
      ((Storage.has_piece ⟨⟨"f", 1, 1⟩, [0], [0]⟩ (unpack32 [0, 0, 0, 0]) =
          .ok true ∨ false = true) →
        nb2.am_interested = false ∧ msgs = []) :=
  on_message_have_spec
    ⟨[⟨2, some [0], true, true, false, false, 0⟩], none, ⟨⟨"f", 1, 1⟩, [0], [0]⟩⟩
    2 ⟨2, some [0], true, true, false, false, 0⟩ [0, 0, 0, 0]
    (by decide) (by decide) (by decide)

end P2P
